import Mathlib

/-!
Verification of the `dirtree` directory-tree generator (src/dirtree.py).

The Python program is shallowly embedded: the `Directory` class becomes a
rose tree (`parent` back-references are represented implicitly by the tree
structure and, where an operation needs them, by explicit context
arguments), Python exceptions become `Except`/`Option` error values, and
`dict`s become association lists that keep Python's insertion order.
Python string comparison (used by `list.sort(key=...)`) is lexicographic
on Unicode code points; it is embedded by the executable comparison
`strLtB` below.
-/

namespace DirTree

/-! ## Lexicographic string comparison (Python `<` on `str`) -/

/-- Lexicographic comparison of character lists by Unicode code point,
exactly as Python compares strings: the first differing position decides,
and a strict prefix is smaller. -/
def strLtB : List Char → List Char → Bool
  | [], [] => false
  | [], _ :: _ => true
  | _ :: _, [] => false
  | a :: as, b :: bs =>
    if a.toNat < b.toNat then true
    else if b.toNat < a.toNat then false
    else strLtB as bs

/-- Python `s < t` on strings. -/
def nameLt (s t : String) : Bool := strLtB s.data t.data

/-- Python `s <= t` on strings (for a total order, `s <= t` iff not `t < s`). -/
def nameLe (s t : String) : Bool := !(nameLt t s)

theorem strLtB_irrefl : ∀ s : List Char, strLtB s s = false
  | [] => rfl
  | a :: as => by
    simp only [strLtB, lt_irrefl, if_false]
    exact strLtB_irrefl as

theorem strLtB_cons_iff (a b : Char) (as bs : List Char) :
    strLtB (a :: as) (b :: bs) = true ↔
      a.toNat < b.toNat ∨ (a.toNat = b.toNat ∧ strLtB as bs = true) := by
  simp only [strLtB]
  by_cases h1 : a.toNat < b.toNat
  · simp [h1]
  · by_cases h2 : b.toNat < a.toNat
    · have hne : a.toNat ≠ b.toNat := by omega
      simp [h1, h2, hne]
    · have he : a.toNat = b.toNat := by omega
      simp [h1, h2, he]

theorem strLtB_cons_false_iff (a b : Char) (as bs : List Char) :
    strLtB (a :: as) (b :: bs) = false ↔
      b.toNat < a.toNat ∨ (a.toNat = b.toNat ∧ strLtB as bs = false) := by
  simp only [strLtB]
  by_cases h1 : a.toNat < b.toNat
  · have hne : a.toNat ≠ b.toNat := by omega
    have h2 : ¬ b.toNat < a.toNat := by omega
    simp [h1, h2, hne]
  · by_cases h2 : b.toNat < a.toNat
    · simp [h1, h2]
    · have he : a.toNat = b.toNat := by omega
      simp [h1, h2, he]

theorem strLtB_asymm : ∀ s t : List Char, strLtB s t = true → strLtB t s = false
  | [], [] => by simp [strLtB]
  | [], _ :: _ => by simp [strLtB]
  | _ :: _, [] => by simp [strLtB]
  | a :: as, b :: bs => by
    rw [strLtB_cons_iff, strLtB_cons_false_iff]
    rintro (h | ⟨he, ht⟩)
    · left
      exact h
    · right
      exact ⟨he.symm, strLtB_asymm as bs ht⟩

theorem strLtB_trans :
    ∀ s t u : List Char, strLtB s t = true → strLtB t u = true → strLtB s u = true
  | [], _, _ :: _, _, _ => rfl
  | [], [], _, h, _ => by simp [strLtB] at h
  | [], _ :: _, [], _, h => by simp [strLtB] at h
  | _ :: _, [], _, h, _ => by simp [strLtB] at h
  | _ :: _, _ :: _, [], _, h => by simp [strLtB] at h
  | a :: as, b :: bs, c :: cs, h1, h2 => by
    rw [strLtB_cons_iff] at h1 h2 ⊢
    rcases h1 with h1 | ⟨he1, ht1⟩
  <;> rcases h2 with h2 | ⟨he2, ht2⟩
    · left
      omega
    · left
      omega
    · left
      omega
    · right
      exact ⟨by omega, strLtB_trans as bs cs ht1 ht2⟩

theorem strLtB_le_trans :
    ∀ s t u : List Char, strLtB t s = false → strLtB u t = false → strLtB u s = false
  | [], _, u => fun _ _ => by cases u <;> rfl
  | _ :: _, [], _ => fun h _ => by simp [strLtB] at h
  | _ :: _, _ :: _, [] => fun _ h2 => by simp [strLtB] at h2
  | a :: as, b :: bs, c :: cs => fun h1 h2 => by
    rw [strLtB_cons_false_iff] at h1 h2 ⊢
    rcases h1 with h1 | ⟨he1, ht1⟩
  <;> rcases h2 with h2 | ⟨he2, ht2⟩
    · left
      omega
    · left
      omega
    · left
      omega
    · right
      exact ⟨by omega, strLtB_le_trans as bs cs ht1 ht2⟩

theorem nameLt_irrefl (s : String) : nameLt s s = false := strLtB_irrefl s.data

theorem nameLt_asymm {s t : String} (h : nameLt s t = true) : nameLt t s = false :=
  strLtB_asymm _ _ h

theorem nameLt_trans {s t u : String} (h1 : nameLt s t = true) (h2 : nameLt t u = true) :
    nameLt s u = true := strLtB_trans _ _ _ h1 h2

theorem nameLe_refl (s : String) : nameLe s s = true := by
  simp [nameLe, nameLt_irrefl]

theorem nameLe_total (s t : String) : nameLe s t = true ∨ nameLe t s = true := by
  cases h : nameLt t s
  · left
    simp [nameLe, h]
  · right
    simp [nameLe, nameLt_asymm h]

theorem nameLe_trans {s t u : String} (h1 : nameLe s t = true) (h2 : nameLe t u = true) :
    nameLe s u = true := by
  simp only [nameLe, Bool.not_eq_true'] at h1 h2 ⊢
  exact strLtB_le_trans _ _ _ h1 h2

theorem nameLe_of_lt {s t : String} (h : nameLt s t = true) : nameLe s t = true := by
  simp [nameLe, nameLt_asymm h]

theorem nameLt_ne {s t : String} (h : nameLt s t = true) : s ≠ t := by
  intro he
  subst he
  simp [nameLt_irrefl] at h

/-! ## The `Directory` tree (class `Directory` in src/dirtree.py)

A `Directory` object holds `_name`, `description`, `icon`, `tags` and the
`_children` array.  The `_parent` back-reference of the Python object is
not stored: it always points to the node whose `_children` array holds
this node, so in the tree embedding it is recovered from context.
Operations that read `self.parent` (the `name` setter, `tree`) receive the
relevant context explicitly. -/

inductive Directory where
  | mk (name : String) (description : Option String) (icon : String)
      (tags : List String) (children : List Directory)

/-- The `_name` attribute. -/
def Directory.name : Directory → String
  | .mk n _ _ _ _ => n

/-- The `description` attribute. -/
def Directory.description : Directory → Option String
  | .mk _ d _ _ _ => d

/-- The `icon` attribute. -/
def Directory.icon : Directory → String
  | .mk _ _ i _ _ => i

/-- The `tags` attribute. -/
def Directory.tags : Directory → List String
  | .mk _ _ _ t _ => t

/-- The `_children` attribute. -/
def Directory.children : Directory → List Directory
  | .mk _ _ _ _ c => c

mutual

def Directory.beq : Directory → Directory → Bool
  | .mk n1 d1 i1 t1 c1, .mk n2 d2 i2 t2 c2 =>
    n1 == n2 && d1 == d2 && i1 == i2 && t1 == t2 && Directory.beqList c1 c2

def Directory.beqList : List Directory → List Directory → Bool
  | [], [] => true
  | a :: as, b :: bs => Directory.beq a b && Directory.beqList as bs
  | _, _ => false

end

mutual

theorem Directory.beq_iff : ∀ a b : Directory, Directory.beq a b = true ↔ a = b
  | .mk n1 d1 i1 t1 c1, .mk n2 d2 i2 t2 c2 => by
    simp only [Directory.beq, Bool.and_eq_true, beq_iff_eq, Directory.mk.injEq]
    rw [Directory.beqList_iff c1 c2]
    tauto

theorem Directory.beqList_iff : ∀ a b : List Directory, Directory.beqList a b = true ↔ a = b
  | [], [] => by simp [Directory.beqList]
  | a :: as, b :: bs => by
    simp only [Directory.beqList, Bool.and_eq_true]
    rw [Directory.beq_iff a b, Directory.beqList_iff as bs]
    simp
  | [], _ :: _ => by simp [Directory.beqList]
  | _ :: _, [] => by simp [Directory.beqList]

end

instance : DecidableEq Directory := fun a b =>
  decidable_of_iff (Directory.beq a b = true) (Directory.beq_iff a b)

instance {ε α : Type} [DecidableEq ε] [DecidableEq α] : DecidableEq (Except ε α) :=
  fun a b =>
    match a, b with
    | .ok x, .ok y => decidable_of_iff (x = y) (by simp)
    | .error e, .error f => decidable_of_iff (e = f) (by simp)
    | .ok _, .error _ => isFalse (by simp)
    | .error _, .ok _ => isFalse (by simp)

/-- The `name` attributes of a list of children (`[c.name for c in children]`). -/
def childNames (l : List Directory) : List String := l.map Directory.name

/-- Errors raised by the Python code.  The source raises built-in
`ValueError` / `KeyError` / `TypeError` / `FileExistsError`; the spec's
taxonomy names them `DuplicateNameError`, `ChildNotFoundError`,
`MalformedRecordError`, `FileConflictError`, `DuplicateRootKeyError`.
Here each raise site is tagged by its role. -/
inductive Err where
  /-- Python `ValueError` from a sibling-name collision (`_add_child`, `name` setter). -/
  | duplicateName
  /-- Python `TypeError` from calling `Directory(**obj)` with a missing `name` key or
  an unexpected keyword (the spec's `MalformedRecordError`). -/
  | typeError
  /-- Python `ValueError` for an `add_children` argument that is neither a
  `Directory` nor a list. -/
  | unsupportedArg
  /-- Python `FileExistsError` from exporting onto an existing file with
  `existing_file_method = "error"` (the spec's `FileConflictError`). -/
  | fileExists
  /-- Python `ValueError` when the root name already exists in the target document
  (the spec's `DuplicateRootKeyError`). -/
  | duplicateRootKey
deriving DecidableEq

/-! ## Sorting of the children array

`add_children` ends with `self._children.sort(key=lambda child: child.name)`:
a stable ascending sort by the `name` string.  Stable insertion sort (insert
each earlier element in front of strictly greater elements only) computes
the same list as Python's stable `list.sort`. -/

/-- The ordering used by `self._children.sort(key=lambda child: child.name)`. -/
def childLe (a b : Directory) : Prop := nameLe a.name b.name = true

instance : DecidableRel childLe := fun _ _ => inferInstanceAs (Decidable (_ = true))

instance : IsTotal Directory childLe := ⟨fun a b => nameLe_total a.name b.name⟩

instance : IsTrans Directory childLe := ⟨fun _ _ _ => nameLe_trans⟩

/-- The call `self._children.sort(key=lambda child: child.name)`. -/
def sortChildren (l : List Directory) : List Directory := List.insertionSort childLe l

/-! ## `_add_child` and `add_children` -/

/-- Method `Directory._add_child` (src/dirtree.py lines 310-330), acting on the
`_children` array: raising a `ValueError` leaves the array unchanged
(the append only happens after the uniqueness scan), so the result is the
possibly-unchanged array together with the raised error, if any. -/
def Directory._add_child (cs : List Directory) (child : Directory) :
    Option Err × List Directory :=
  if cs.any (fun subdir => subdir.name == child.name) then (some Err.duplicateName, cs)
  else (none, cs ++ [child])

/-- An argument of `add_children`: `Union[Directory, List[Directory]]`,
nested arbitrarily (the method recurses into lists). -/
inductive Arg where
  | dir (d : Directory)
  | lst (l : List Arg)

mutual

/-- Method `Directory.add_children` (src/dirtree.py lines 332-377), acting on the
`_children` array.  Each `Directory` argument goes through `_add_child`;
each list argument is handled by a recursive `add_children` call (which
therefore also ends with its own sort); the first raised error aborts the
call, skipping the end-of-call sort; after a completed loop the array is
sorted by name. -/
def Directory.add_children (cs : List Directory) : List Arg → Option Err × List Directory
  | [] => (none, sortChildren cs)
  | a :: rest =>
    match Directory.addOneArg cs a with
    | (some e, cs2) => (some e, cs2)
    | (none, cs2) => Directory.add_children cs2 rest

/-- One iteration of the `for arg in args` loop of `add_children`: a
`Directory` goes to `_add_child`, a list to a recursive `add_children`
call. -/
def Directory.addOneArg (cs : List Directory) : Arg → Option Err × List Directory
  | .dir d => Directory._add_child cs d
  | .lst l => Directory.add_children cs l

end

mutual

/-- The `Directory` objects contained in one `add_children` argument, in
insertion order. -/
def flattenArg : Arg → List Directory
  | .dir d => [d]
  | .lst l => flattenArgs l

/-- The `Directory` objects contained in an `add_children` argument list,
in insertion order. -/
def flattenArgs : List Arg → List Directory
  | [] => []
  | a :: rest => flattenArg a ++ flattenArgs rest

end

/-! ## The `name` setter (rename)

The setter (src/dirtree.py lines 269-285) runs, when `self.parent` is not
`None`, the loop

    for subdir in self.parent._children:
        if self.name == value: return
        if subdir.name == value: raise ValueError(...)
    self._name = value

The first test does not depend on `subdir`, so the loop (a) returns with no
change as soon as it runs one iteration with `self.name == value`, (b)
raises at the first `subdir` whose name is `value` otherwise, and (c) falls
through to the assignment when the scan completes. -/

/-- Outcome of the scan loop of the `name` setter over the parent's
children: `.ok true` means fall through and assign, `.ok false` means the
early `return` fired (no assignment), `.error` is the raised `ValueError`. -/
def scanSiblings (selfName value : String) : List Directory → Except Err Bool
  | [] => .ok true
  | subdir :: rest =>
    if selfName == value then .ok false
    else if subdir.name == value then .error Err.duplicateName
    else scanSiblings selfName value rest

/-- The object `self` with its `_name` replaced (the assignment `self._name = value`). -/
def Directory.withName : Directory → String → Directory
  | .mk _ de ic tg cs, v => .mk v de ic tg cs

/-- The `name` setter.  `parentChildren` is `self.parent._children` when
`self.parent` is not `None`, and `none` for a root.  The result is the
updated `self`; an `.error` result is the raised `ValueError`, in which
case the Python object was not modified (the assignment comes after the
scan). -/
def Directory.setName (parentChildren : Option (List Directory)) (self : Directory)
    (value : String) : Except Err Directory :=
  match parentChildren with
  | none => .ok (self.withName value)
  | some siblings =>
    match scanSiblings self.name value siblings with
    | .error e => .error e
    | .ok true => .ok (self.withName value)
    | .ok false => .ok self

/-- Renaming the `i`-th child of a parent: the setter runs with the parent's
`_children` array as context, and, since the Python assignment mutates the
child object in place, the array afterwards holds the updated child at the
same position. -/
def renameChildAt (cs : List Directory) (i : Nat) (hi : i < cs.length) (value : String) :
    Except Err (List Directory) :=
  match Directory.setName (some cs) (cs.get ⟨i, hi⟩) value with
  | .error e => .error e
  | .ok d => .ok (cs.set i d)

/-! ## The constructor (`Directory.__init__`, src/dirtree.py lines 48-57)

The constructor assigns `_name`, `description`, `icon`, `tags`
(`[] if tags is None else tags`), `_parent = None` and `_children = []`.
It contains no validation and no `raise`: every call returns a leaf node
with no parent. -/

/-- The constructor call `Directory(name, description=None, icon="bx-folder", tags=None)`. -/
def directoryInit (name : String) (description : Option String := none)
    (icon : String := "bx-folder") (tags : Option (List String) := none) : Directory :=
  .mk name description icon (tags.getD []) []

/-! ## The structured-record importer (`Directory._build_from_object`)

A Python `dict` argument is embedded as a record listing, for each schema
key, whether the key is present and with which value, plus the list of any
other (unknown) keys present.  A key present with value `None` behaves,
for `description` and `tags`, exactly like an absent key (the constructor
defaults `description` to `None` and coalesces `tags=None` to `[]`), so
those two are collapsed into one `Option`; values are assumed to follow
the document schema types. -/

inductive Rec where
  | mk (name : Option String) (description : Option String) (icon : Option String)
      (tags : Option (List String)) (children : Option (List Rec))
      (unknown : List String)

def Rec.name : Rec → Option String
  | .mk n _ _ _ _ _ => n

def Rec.children : Rec → Option (List Rec)
  | .mk _ _ _ _ c _ => c

def Rec.unknown : Rec → List String
  | .mk _ _ _ _ _ u => u

mutual

/-- Method `Directory._build_from_object` (src/dirtree.py lines 74-88): pop
`children` (default `[]`), call `Directory(**obj)` — which raises
`TypeError` when `name` is absent or any unexpected keyword remains —
then recursively build the children and attach them with
`add_children(children)` (a single list argument). -/
def Directory._build_from_object : Rec → Except Err Directory
  | .mk nm de ic tg ch unk =>
    match nm with
    | none => .error Err.typeError
    | some n =>
      if unk.isEmpty then
        match Directory.buildOptList ch with
        | .error e => .error e
        | .ok cs =>
          match Directory.add_children [] [Arg.lst (cs.map Arg.dir)] with
          | (some e, _) => .error e
          | (none, cs2) => .ok (.mk n de (ic.getD "bx-folder") (tg.getD []) cs2)
      else .error Err.typeError

/-- The step `obj.pop("children", [])` followed by the children comprehension: an
absent `children` key behaves as the empty list. -/
def Directory.buildOptList : Option (List Rec) → Except Err (List Directory)
  | none => .ok []
  | some l => Directory.buildList l

/-- The list comprehension
`[Directory._build_from_object(child) for child in obj_children]`:
children are built left to right and the first raised error propagates. -/
def Directory.buildList : List Rec → Except Err (List Directory)
  | [] => .ok []
  | r :: rs =>
    match Directory._build_from_object r with
    | .error e => .error e
    | .ok d =>
      match Directory.buildList rs with
      | .error e => .error e
      | .ok ds => .ok (d :: ds)

end

/-! ## The serializer (`Directory._objectify`, src/dirtree.py lines 515-522) -/

mutual

/-- Method `Directory._objectify`: the nested dictionary
`{name, icon, description, tags, children}` of a node.  All schema keys are
present and there are no unknown keys. -/
def Directory._objectify : Directory → Rec
  | .mk n de ic tg cs => .mk (some n) de (some ic) (some tg) (some (Directory.objectifyList cs)) []

/-- The comprehension `[child._objectify() for child in self._children]`. -/
def Directory.objectifyList : List Directory → List Rec
  | [] => []
  | c :: cs => Directory._objectify c :: Directory.objectifyList cs

end

/-! ## The renderer (`Directory.tree`, src/dirtree.py lines 389-424)

`tree` builds each node's prefix by walking `parent` pointers: the node
itself contributes `"└─ "` or `"├─ "` by `_is_last_child` (nothing for the
root), and the `while` loop prepends, for every ancestor strictly between
the node and the root (the walk stops when `ancestor.parent.parent` is
`None`), `"   "` if that ancestor `_is_last_child` else `"│  "`, in
root-to-node order.  In the tree embedding the same prefix is passed down
the recursion: a child of the root starts with empty columns, and a child
of a non-root node extends its parent's columns by the parent's own
continuation column.  `levels` is `inf` by default; `Option Nat` embeds it
with `none` for `inf` (Python's `levels - 1` may go negative, but the
`levels > 1` guard makes truncated subtraction behaviourally identical). -/

def levelsGtOne : Option Nat → Bool
  | none => true
  | some n => decide (1 < n)

def levelsPred : Option Nat → Option Nat
  | none => none
  | some n => some (n - 1)

mutual

/-- One node's contribution to `tree`: its own line (continuation columns,
corner glyph, `📁 `, name) followed, while `levels > 1`, by the recursively
rendered children, each on a new line. -/
def Directory.treeNode (cols : String) (isRoot isLast : Bool) (levels : Option Nat) :
    Directory → String
  | .mk n _ _ _ cs =>
    (cols ++ (if isRoot then "" else if isLast then "└─ " else "├─ ") ++ "📁 " ++ n) ++
      (if levelsGtOne levels then
        Directory.treeList
          (if isRoot then "" else cols ++ (if isLast then "   " else "│  "))
          (levelsPred levels) cs
      else "")

/-- The loop `for child in self._children: line += "\n" + child.tree(...)`;
the last list entry is the one for which `_is_last_child` holds. -/
def Directory.treeList (cols : String) (levels : Option Nat) : List Directory → String
  | [] => ""
  | c :: rest =>
    "\n" ++ Directory.treeNode cols false rest.isEmpty levels c ++
      Directory.treeList cols levels rest

end

/-- The call `d.tree(levels)` on a root node (`_parent is None`). -/
def Directory.tree (d : Directory) (levels : Option Nat := none) : String :=
  Directory.treeNode "" true false levels d

/-! ## The README template engine
(`replace_all`, src/dirtree.py lines 20-39, and `Directory._export_readme`,
lines 435-488)

Python dictionaries are embedded as association lists in insertion order;
`replacements |= custom_placeholders` keeps the position of keys already
present (updating their value in place) and appends genuinely new keys at
the end.  `datetime`-derived values are impure and enter as parameters.
`self.ancestors` (root to self, inclusive) is parent-pointer context and
also enters as a parameter. -/

/-- Python `str(x)` for an optional string (`None` prints as `"None"`). -/
def optStr : Option String → String
  | none => "None"
  | some s => s

/-- Python `sep.join(items)`. -/
def joinSep (sep : String) : List String → String
  | [] => ""
  | [x] => x
  | x :: y :: xs => x ++ sep ++ joinSep sep (y :: xs)

/-- Python `s * n` for strings. -/
def repeatStr (s : String) : Nat → String
  | 0 => ""
  | n + 1 => s ++ repeatStr s n

/-- Upper-case hexadecimal digit, as `urllib.parse.quote` emits. -/
def hexDigit (n : Nat) : Char :=
  if n < 10 then Char.ofNat (48 + n) else Char.ofNat (55 + n)

/-- UTF-8 encoding of one character, as a list of byte values. -/
def utf8Bytes (c : Char) : List Nat :=
  let n := c.toNat
  if n < 128 then [n]
  else if n < 2048 then [192 + n / 64, 128 + n % 64]
  else if n < 65536 then [224 + n / 4096, 128 + (n / 64) % 64, 128 + n % 64]
  else [240 + n / 262144, 128 + (n / 4096) % 64, 128 + (n / 64) % 64, 128 + n % 64]

/-- Characters `urllib.parse.quote` leaves unescaped with the default
`safe="/"`: ASCII letters, digits, `_.-~` and `/`. -/
def quoteSafe (c : Char) : Bool :=
  (65 ≤ c.toNat && c.toNat ≤ 90) || (97 ≤ c.toNat && c.toNat ≤ 122) ||
    (48 ≤ c.toNat && c.toNat ≤ 57) ||
    c == '_' || c == '.' || c == '-' || c == '~' || c == '/'

/-- Python `urllib.parse.quote(s)`: percent-encode every UTF-8 byte of every
non-safe character. -/
def quote (s : String) : String :=
  String.mk (s.data.flatMap fun c =>
    if quoteSafe c then [c]
    else (utf8Bytes c).flatMap fun b => ['%', hexDigit (b / 16), hexDigit (b % 16)])

/-- Python `str(tags)` for a list of strings: `repr`-style with single
quotes (tags are assumed not to need escaping). -/
def pyStrList : List String → String
  | [] => "[]"
  | l => "[" ++ joinSep ", " (l.map fun s => "\x27" ++ s ++ "\x27") ++ "]"

/-- One breadcrumb entry of `[DIRECTORY_CONTENTS]`: `nAnc` is
`len(self.ancestors)` and `idx` the `enumerate` index of this ancestor. -/
def breadcrumbItem (nAnc idx : Nat) (a : Directory) : String :=
  "<i class=\"bx " ++ a.icon ++ "\"></i> **[" ++ a.name ++ "](" ++
    repeatStr "../" (nAnc - idx) ++ quote a.name ++ "/README.md)**"

/-- One direct-child bullet of `[DIRECTORY_CONTENTS]` (a `None` description
is stringified to `None` by the f-string). -/
def childItem (c : Directory) : String :=
  "  - <i class=\"bx " ++ c.icon ++ "\"></i> **[" ++ c.name ++ "](" ++ quote c.name ++
    "/README.md)**: " ++ optStr c.description

/-- The `[DIRECTORY_CONTENTS]` replacement value: the ancestor breadcrumb
joined by `>` followed by the child bullets. -/
def directoryContents (ancs : List Directory) (self : Directory) : String :=
  "- " ++ joinSep " > " (ancs.enum.map fun p => breadcrumbItem ancs.length p.1 p.2) ++
    "\n" ++ joinSep "\n" (self.children.map childItem)

/-- The `replacements` dictionary of `_export_readme`, in source order.
Values are `Option String` because `self.description` may be `None`
(`replace_all` maps `None` to the empty string). -/
def readmeReplacements (ancs : List Directory) (self : Directory)
    (currentDate currentTime currentDatetime : String) : List (String × Option String) :=
  [("[DIRECTORY_NAME]", some self.name),
   ("[DIRECTORY_ICON]", some self.icon),
   ("[DIRECTORY_DESCRIPTION]", self.description),
   ("[DIRECTORY_TAGS_LIST]",
     some (if self.tags.length > 0 then "`" ++ joinSep "` `" self.tags ++ "`" else "")),
   ("[DIRECTORY_FRONTMATTER]",
     some ("directory_name: " ++ self.name ++
       "\ndirectory_icon: " ++ self.icon ++
       "\ndirectory_description: " ++ optStr self.description ++
       "\ndirectory_tags_list: " ++ pyStrList self.tags)),
   ("[CURRENT_DATE]", some currentDate),
   ("[CURRENT_TIME]", some currentTime),
   ("[CURRENT_DATETIME]", some currentDatetime),
   ("[DIRECTORY_CONTENTS]", some (directoryContents ancs self))]

/-- The keys of an association-list dictionary. -/
def dictKeys (m : List (String × Option String)) : List String := m.map Prod.fst

/-- Python `base |= extra` on dictionaries: a key already in `base` keeps
its position and takes the value from `extra`; keys only in `extra` are
appended in their order. -/
def dictUpdate (base extra : List (String × Option String)) : List (String × Option String) :=
  (base.map fun kv =>
    match extra.lookup kv.1 with
    | some v2 => (kv.1, v2)
    | none => kv) ++
    extra.filter fun kv => !(dictKeys base).contains kv.1

/-- If `pat` is a prefix of `l`, the rest of `l` after it. -/
def dropPrefixCh : List Char → List Char → Option (List Char)
  | [], l => some l
  | _ :: _, [] => none
  | p :: ps, c :: cs => if p == c then dropPrefixCh ps cs else none

/-- Python `str.replace` scan: left to right, replacing non-overlapping
occurrences and continuing after each replacement.  `fuel` only drives
termination; it never runs out when it starts at the list's length and the
pattern is non-empty. -/
def replaceCore (pat rep : List Char) : Nat → List Char → List Char
  | _, [] => []
  | 0, l => l
  | fuel + 1, c :: cs =>
    match dropPrefixCh pat (c :: cs) with
    | some rest => rep ++ replaceCore pat rep fuel rest
    | none => c :: replaceCore pat rep fuel cs

/-- Python `s.replace(pat, rep)`, including the empty-pattern behaviour
(`rep` around every character). -/
def pyReplace (s pat rep : String) : String :=
  if pat.data.isEmpty then String.mk ((s.data.flatMap fun c => rep.data ++ [c]) ++ rep.data)
  else String.mk (replaceCore pat.data rep.data s.data.length s.data)

/-- Function `replace_all` (src/dirtree.py lines 20-39): one `str.replace` per
mapping entry, in mapping order, each acting on the result of the previous
one; a `None` value is replaced by the empty string. -/
def replace_all (s : String) (mapping : List (String × Option String)) : String :=
  mapping.foldl (fun acc kv => pyReplace acc kv.1 (kv.2.getD "")) s

/-- Specification-side definition, following the spec's words rather than
the source: a SINGLE simultaneous pass of exact substring replacement.  The
text is scanned once, left to right; at each position the first mapping key
that matches is replaced (`None` values as empty string) and scanning
resumes after the replacement, so replacement text is never itself
re-substituted.  Used only to compare the source's `replace_all` against
the spec's description. -/
def firstKeyMatch (m : List (String × Option String)) (l : List Char) :
    Option (List Char × List Char) :=
  match m with
  | [] => none
  | kv :: rest =>
    if kv.1.data.isEmpty then firstKeyMatch rest l
    else
      match dropPrefixCh kv.1.data l with
      | some rem => some ((kv.2.getD "").data, rem)
      | none => firstKeyMatch rest l

/-- Single-pass scanner for `specOnePassReplace` (fuel as in `replaceCore`). -/
def onePassCore (m : List (String × Option String)) : Nat → List Char → List Char
  | _, [] => []
  | 0, l => l
  | fuel + 1, c :: cs =>
    match firstKeyMatch m (c :: cs) with
    | some (rep, rem) => rep ++ onePassCore m fuel rem
    | none => c :: onePassCore m fuel cs

/-- Specification-side single-pass substitution (see `firstKeyMatch`). -/
def specOnePassReplace (s : String) (m : List (String × Option String)) : String :=
  String.mk (onePassCore m s.data.length s.data)

/-- Python `re.sub` of three-or-more newlines: every maximal run of three or more
newlines becomes exactly two.  `pending` counts the newlines of the current
run. -/
def collapseCore (pending : Nat) : List Char → List Char
  | [] => List.replicate (if 3 ≤ pending then 2 else pending) '\n'
  | c :: cs =>
    if c == '\n' then collapseCore (pending + 1) cs
    else List.replicate (if 3 ≤ pending then 2 else pending) '\n' ++ c :: collapseCore 0 cs

/-- The newline-collapsing step of `_export_readme`. -/
def collapseNewlines (s : String) : String := String.mk (collapseCore 0 s.data)

/-- Method `Directory._export_readme` (src/dirtree.py lines 435-488) up to the
file write: the produced `README.md` text.  `template` is the template
file's contents, `ancs` is `self.ancestors`, the `current*` strings are the
`datetime` values. -/
def Directory._export_readme (template : String) (ancs : List Directory) (self : Directory)
    (currentDate currentTime currentDatetime : String)
    (custom_placeholders : List (String × Option String)) : String :=
  collapseNewlines (replace_all template
    (dictUpdate (readmeReplacements ancs self currentDate currentTime currentDatetime)
      custom_placeholders))

/-! ## Document export (`Directory.export_yaml` lines 524-555 and
`Directory.export_json` lines 557-588; both have the same structure) -/

/-- The `existing_file_method` literal. -/
inductive FileMethod where
  | add
  | overwrite
  | error
deriving DecidableEq

/-- Methods `export_yaml` / `export_json` at the level of the structured document:
`file` is `none` when `os.path.exists(filename)` is false and `some data`
with the parsed top-level mapping otherwise.  An `.ok` result is the
mapping the file holds afterwards; an `.error` result is the exception,
raised before any write, so the file keeps its previous contents. -/
def Directory.export_document (self : Directory) (file : Option (List (String × Rec)))
    (root_name : String) (method : FileMethod) : Except Err (List (String × Rec)) :=
  match file, method with
  | some data, .add =>
    if (data.map Prod.fst).contains root_name then .error Err.duplicateRootKey
    else .ok (data ++ [(root_name, self._objectify)])
  | some _, .error => .error Err.fileExists
  | some _, .overwrite => .ok [(root_name, self._objectify)]
  | none, _ => .ok [(root_name, self._objectify)]

/-! ## Basic facts about the sort and the uniqueness scan -/

/-- A leaf with all-default metadata (`Directory(n)`), used for concrete
instances. -/
def leaf (n : String) : Directory := .mk n none "bx-folder" [] []

theorem childNames_append (l1 l2 : List Directory) :
    childNames (l1 ++ l2) = childNames l1 ++ childNames l2 := List.map_append _ _ _

theorem sortChildren_perm (l : List Directory) : List.Perm (sortChildren l) l :=
  List.perm_insertionSort childLe l

theorem sortChildren_sorted (l : List Directory) : List.Sorted childLe (sortChildren l) :=
  List.sorted_insertionSort childLe l

theorem childNames_sortChildren_sorted (l : List Directory) :
    List.Sorted (fun s t => nameLe s t = true) (childNames (sortChildren l)) := by
  have h := sortChildren_sorted l
  simpa [childNames, List.Sorted, List.pairwise_map] using h

theorem childNames_sortChildren_nodup {l : List Directory} (h : (childNames l).Nodup) :
    (childNames (sortChildren l)).Nodup := by
  have hp : List.Perm (childNames (sortChildren l)) (childNames l) :=
    (sortChildren_perm l).map Directory.name
  exact hp.nodup_iff.mpr h

theorem _add_child_mem {cs : List Directory} {child : Directory}
    (h : child.name ∈ childNames cs) :
    Directory._add_child cs child = (some Err.duplicateName, cs) := by
  simp only [Directory._add_child, childNames, List.mem_map] at h ⊢
  obtain ⟨d, hd, hn⟩ := h
  have : cs.any (fun subdir => subdir.name == child.name) = true := by
    simp only [List.any_eq_true]
    exact ⟨d, hd, by simp [hn]⟩
  simp [this]

theorem _add_child_not_mem {cs : List Directory} {child : Directory}
    (h : child.name ∉ childNames cs) :
    Directory._add_child cs child = (none, cs ++ [child]) := by
  simp only [Directory._add_child]
  have : cs.any (fun subdir => subdir.name == child.name) = false := by
    simp only [List.any_eq_false]
    intro d hd
    simp only [beq_iff_eq]
    intro he
    exact h (by simpa [childNames, List.mem_map] using ⟨d, hd, he⟩)
  simp [this]

theorem nodup_append_singleton {cs : List Directory} {d : Directory}
    (hn : (childNames cs).Nodup) (hd : d.name ∉ childNames cs) :
    (childNames (cs ++ [d])).Nodup := by
  rw [childNames_append]
  have hp : List.Perm (childNames cs ++ childNames [d]) (d.name :: childNames cs) :=
    List.perm_append_singleton _ _
  exact hp.nodup_iff.mpr (List.nodup_cons.mpr ⟨hd, hn⟩)

theorem scanSiblings_error {selfName value : String} (hne : selfName ≠ value) :
    ∀ {l : List Directory}, (∃ d ∈ l, d.name = value) →
      scanSiblings selfName value l = .error Err.duplicateName
  | [], h => by simp at h
  | subdir :: rest, h => by
    simp only [scanSiblings, beq_iff_eq, if_neg hne]
    by_cases hs : subdir.name = value
    · simp [hs]
    · have hr : ∃ d ∈ rest, d.name = value := by
        obtain ⟨d, hd, hv⟩ := h
        rcases List.mem_cons.mp hd with rfl | hd2
        · exact absurd hv hs
        · exact ⟨d, hd2, hv⟩
      simp only [beq_iff_eq, if_neg hs]
      exact scanSiblings_error hne hr

theorem scanSiblings_pass {selfName value : String} (hne : selfName ≠ value) :
    ∀ {l : List Directory}, (∀ d ∈ l, d.name ≠ value) →
      scanSiblings selfName value l = .ok true
  | [], _ => rfl
  | subdir :: rest, h => by
    simp only [scanSiblings, beq_iff_eq, if_neg hne, if_neg (h subdir (List.mem_cons_self _ _))]
    exact scanSiblings_pass hne (fun d hd => h d (List.mem_cons_of_mem _ hd))

theorem scanSiblings_self {value : String} {l : List Directory} (h : l ≠ []) :
    scanSiblings value value l = .ok false := by
  cases l with
  | nil => exact absurd rfl h
  | cons subdir rest => simp [scanSiblings]

theorem Directory.withName_name (d : Directory) (v : String) : (d.withName v).name = v := by
  cases d
  rfl

/-! ## Claim theorems -/

/-- Claim C3: for every node that has a parent and every `newName` already
used by a different sibling, renaming fails with the duplicate-name
`ValueError` (the spec's `DuplicateNameError`) and, the exception being
raised before the assignment, the tree is unmodified; when no different
sibling uses `newName`, renaming succeeds and the node's name becomes
`newName` while every other child of the parent is untouched.  The
sibling-uniqueness invariant of the data model is the `Nodup` hypothesis. -/
theorem c3_rename_sibling (cs : List Directory) (i : Nat) (hi : i < cs.length) (v : String)
    (hnd : (childNames cs).Nodup) :
    ((∃ j, ∃ hj : j < cs.length, j ≠ i ∧ cs[j].name = v) →
      renameChildAt cs i hi v = .error Err.duplicateName) ∧
    ((∀ j, ∀ hj : j < cs.length, j ≠ i → cs[j].name ≠ v) →
      ∃ cs2, renameChildAt cs i hi v = .ok cs2 ∧
        cs2.length = cs.length ∧
        (∀ hi2 : i < cs2.length, cs2[i].name = v) ∧
        (∀ j, ∀ hj : j < cs.length, ∀ hj2 : j < cs2.length, j ≠ i → cs2[j] = cs[j])) := by
  have hget : cs.get ⟨i, hi⟩ = cs[i] := rfl
  constructor
  · rintro ⟨j, hj, hji, hjv⟩
    have hci : i < (childNames cs).length := by simpa [childNames] using hi
    have hcj : j < (childNames cs).length := by simpa [childNames] using hj
    have hself : (cs.get ⟨i, hi⟩).name ≠ v := by
      intro hv
      have heq : (childNames cs)[i] = (childNames cs)[j] := by
        simp only [childNames, List.getElem_map]
        rw [hget] at hv
        rw [hv, hjv]
      have hij : i = j := (List.Nodup.getElem_inj_iff hnd).mp heq
      exact hji hij.symm
    have hmem : ∃ d ∈ cs, d.name = v := ⟨cs[j], List.getElem_mem hj, hjv⟩
    simp only [renameChildAt, Directory.setName, scanSiblings_error hself hmem]
  · intro hothers
    have hne : cs ≠ [] := by
      intro h
      subst h
      simp at hi
    by_cases hself : (cs.get ⟨i, hi⟩).name = v
    · refine ⟨cs.set i (cs.get ⟨i, hi⟩), ?_, by simp, ?_, ?_⟩
      · simp only [renameChildAt, Directory.setName, hself, scanSiblings_self hne]
      · intro hi2
        rw [List.getElem_set_self]
        exact hself
      · intro j hj hj2 hji
        rw [List.getElem_set_ne (Ne.symm hji)]
    · have hall : ∀ d ∈ cs, d.name ≠ v := by
        intro d hd
        obtain ⟨⟨j, hj⟩, rfl⟩ := List.mem_iff_get.mp hd
        by_cases hji : j = i
        · subst hji
          exact hself
        · exact hothers j hj hji
      refine ⟨cs.set i ((cs.get ⟨i, hi⟩).withName v), ?_, by simp, ?_, ?_⟩
      · simp only [renameChildAt, Directory.setName, scanSiblings_pass hself hall]
      · intro hi2
        rw [List.getElem_set_self]
        exact Directory.withName_name _ _
      · intro j hj hj2 hji
        rw [List.getElem_set_ne (Ne.symm hji)]

/-- Witness for C3 at a concrete input: renaming the child `a` of a parent
with children `a`, `b` to the sibling name `b` raises the duplicate-name
error. -/
theorem c3_rename_sibling_witness :
    renameChildAt [leaf "a", leaf "b"] 0 (by decide) "b" = .error Err.duplicateName :=
  (c3_rename_sibling [leaf "a", leaf "b"] 0 (by decide) "b" (by decide)).1
    ⟨1, by decide, by decide, by decide⟩

mutual

theorem add_children_ok_aux : ∀ (args : List Arg) (cs cs2 : List Directory),
    Directory.add_children cs args = (none, cs2) →
    List.Sorted (fun s t => nameLe s t = true) (childNames cs2) ∧
      ((childNames cs).Nodup → (childNames cs2).Nodup)
  | [], cs, cs2, h => by
    simp only [Directory.add_children, Prod.mk.injEq] at h
    rw [← h.2]
    exact ⟨childNames_sortChildren_sorted cs, fun hn => childNames_sortChildren_nodup hn⟩
  | a :: rest, cs, cs2, h => by
    rw [Directory.add_children] at h
    cases ha : Directory.addOneArg cs a with
    | mk e cs1 =>
      rw [ha] at h
      cases e with
      | some e0 => simp at h
      | none =>
        have hstep := addOneArg_nodup_aux a cs cs1 ha
        have ih := add_children_ok_aux rest cs1 cs2 h
        exact ⟨ih.1, fun hn => ih.2 (hstep hn)⟩

theorem addOneArg_nodup_aux : ∀ (a : Arg) (cs cs1 : List Directory),
    Directory.addOneArg cs a = (none, cs1) →
    (childNames cs).Nodup → (childNames cs1).Nodup
  | .dir d, cs, cs1, h, hn => by
    rw [Directory.addOneArg] at h
    by_cases hd : d.name ∈ childNames cs
    · rw [_add_child_mem hd] at h
      simp at h
    · rw [_add_child_not_mem hd] at h
      simp only [Prod.mk.injEq] at h
      rw [← h.2]
      exact nodup_append_singleton hn hd
  | .lst l, cs, cs1, h, hn => (add_children_ok_aux l cs cs1 h).2 hn

end

/-- Claim C1: whenever a call of `add_children` returns without raising —
for any mix of single nodes and arbitrarily nested lists of nodes — the
resulting children array is sorted ascending by `name` in code-point
lexicographic order, and, provided the existing children had pairwise
distinct names (the data-model invariant), the resulting array still has
pairwise distinct names. -/
theorem c1_add_children_sorted_unique (cs : List Directory) (args : List Arg)
    (cs2 : List Directory) (h : Directory.add_children cs args = (none, cs2)) :
    List.Sorted (fun s t => nameLe s t = true) (childNames cs2) ∧
      ((childNames cs).Nodup → (childNames cs2).Nodup) :=
  add_children_ok_aux args cs cs2 h

/-- Witness for C1 at a concrete input: inserting `b` and a nested list
`[a]` into a node with one child `z` yields the sorted, duplicate-free
children `[a, b, z]`. -/
theorem c1_add_children_sorted_unique_witness :
    List.Sorted (fun s t => nameLe s t = true) (childNames [leaf "a", leaf "b", leaf "z"]) ∧
      (childNames [leaf "a", leaf "b", leaf "z"]).Nodup := by
  have h := c1_add_children_sorted_unique [leaf "z"]
    [.dir (leaf "b"), .lst [.dir (leaf "a")]] [leaf "a", leaf "b", leaf "z"] (by decide)
  exact ⟨h.1, h.2 (by decide)⟩

mutual

theorem add_children_ok_perm : ∀ (args : List Arg) (cs cs2 : List Directory),
    Directory.add_children cs args = (none, cs2) →
    List.Perm cs2 (cs ++ flattenArgs args)
  | [], cs, cs2, h => by
    simp only [Directory.add_children, Prod.mk.injEq] at h
    rw [← h.2, flattenArgs, List.append_nil]
    exact sortChildren_perm cs
  | a :: rest, cs, cs2, h => by
    rw [Directory.add_children] at h
    cases ha : Directory.addOneArg cs a with
    | mk e cs1 =>
      rw [ha] at h
      cases e with
      | some e0 => simp at h
      | none =>
        have h1 := addOneArg_ok_perm a cs cs1 ha
        have h2 := add_children_ok_perm rest cs1 cs2 h
        have h3 := h2.trans (h1.append_right (flattenArgs rest))
        have h4 : (cs ++ flattenArg a) ++ flattenArgs rest =
            cs ++ (flattenArg a ++ flattenArgs rest) := List.append_assoc ..
        exact h4 ▸ h3

theorem addOneArg_ok_perm : ∀ (a : Arg) (cs cs1 : List Directory),
    Directory.addOneArg cs a = (none, cs1) → List.Perm cs1 (cs ++ flattenArg a)
  | .dir d, cs, cs1, h => by
    rw [Directory.addOneArg] at h
    by_cases hd : d.name ∈ childNames cs
    · rw [_add_child_mem hd] at h
      simp at h
    · rw [_add_child_not_mem hd] at h
      simp only [Prod.mk.injEq] at h
      rw [← h.2]
      exact List.Perm.refl _
  | .lst l, cs, cs1, h => add_children_ok_perm l cs cs1 h

end

mutual

theorem add_children_fail_perm : ∀ (args : List Arg) (cs : List Directory) (e : Err)
    (cs2 : List Directory), Directory.add_children cs args = (some e, cs2) →
    ∃ n, List.Perm cs2 (cs ++ (flattenArgs args).take n)
  | [], cs, e, cs2, h => by simp [Directory.add_children] at h
  | a :: rest, cs, e, cs2, h => by
    rw [Directory.add_children] at h
    cases ha : Directory.addOneArg cs a with
    | mk e0 cs1 =>
      rw [ha] at h
      cases e0 with
      | some e0 =>
        simp only [Prod.mk.injEq] at h
        obtain ⟨n, hn⟩ := addOneArg_fail_perm a cs e0 cs1 ha
        rw [← h.2]
        by_cases hle : n ≤ (flattenArg a).length
        · refine ⟨n, ?_⟩
          have : (flattenArgs (a :: rest)).take n = (flattenArg a).take n :=
            List.take_append_of_le_length hle
          rw [this]
          exact hn
        · refine ⟨(flattenArg a).length, ?_⟩
          have h5 : (flattenArg a).take n = flattenArg a :=
            List.take_of_length_le (by omega)
          have h6 : (flattenArgs (a :: rest)).take (flattenArg a).length = flattenArg a :=
            List.take_left ..
          rw [h6]
          rw [h5] at hn
          exact hn
      | none =>
        have h1 := addOneArg_ok_perm a cs cs1 ha
        obtain ⟨n, hn⟩ := add_children_fail_perm rest cs1 e cs2 h
        refine ⟨(flattenArg a).length + n, ?_⟩
        have h7 : (flattenArgs (a :: rest)).take ((flattenArg a).length + n) =
            flattenArg a ++ (flattenArgs rest).take n := List.take_append n
        rw [h7]
        have h8 := hn.trans (h1.append_right ((flattenArgs rest).take n))
        have h9 : (cs ++ flattenArg a) ++ (flattenArgs rest).take n =
            cs ++ (flattenArg a ++ (flattenArgs rest).take n) := List.append_assoc ..
        exact h9 ▸ h8

theorem addOneArg_fail_perm : ∀ (a : Arg) (cs : List Directory) (e : Err)
    (cs1 : List Directory), Directory.addOneArg cs a = (some e, cs1) →
    ∃ n, List.Perm cs1 (cs ++ (flattenArg a).take n)
  | .dir d, cs, e, cs1, h => by
    rw [Directory.addOneArg] at h
    by_cases hd : d.name ∈ childNames cs
    · rw [_add_child_mem hd] at h
      simp only [Prod.mk.injEq] at h
      rw [← h.2]
      exact ⟨0, by simp⟩
    · rw [_add_child_not_mem hd] at h
      simp at h
  | .lst l, cs, e, cs1, h => add_children_fail_perm l cs e cs1 h

end

theorem add_children_flat_fail (ds : List Directory) :
    ∀ (cs : List Directory) (e : Err) (cs2 : List Directory),
      Directory.add_children cs (ds.map Arg.dir) = (some e, cs2) →
      ∃ n, cs2 = cs ++ ds.take n := by
  induction ds with
  | nil =>
    intro cs e cs2 h
    simp [Directory.add_children] at h
  | cons d ds ih =>
    intro cs e cs2 h
    rw [List.map_cons, Directory.add_children, Directory.addOneArg] at h
    by_cases hd : d.name ∈ childNames cs
    · rw [_add_child_mem hd] at h
      simp only [Prod.mk.injEq] at h
      exact ⟨0, by simp [← h.2]⟩
    · rw [_add_child_not_mem hd] at h
      obtain ⟨n, hn⟩ := ih (cs ++ [d]) e cs2 h
      refine ⟨n + 1, ?_⟩
      rw [hn, List.take_succ_cons, List.append_assoc]
      rfl

/-- Claim C10: a failing `add_children` call keeps the children inserted
before the failing item — the state it leaves behind is the previous array
extended by exactly the already-processed prefix of the flattened
arguments (up to the re-sorts performed by completed inner recursive calls
for nested list arguments, whence the permutation in the general clause;
for a flat argument list the equality is exact) — and the end-of-call sort
of the failing call is skipped, so the resulting array need not be sorted,
as the concrete failed call whose result is `[z, a]` shows. -/
theorem c10_failed_add_children :
    (∀ (cs : List Directory) (args : List Arg) (e : Err) (cs2 : List Directory),
      Directory.add_children cs args = (some e, cs2) →
      ∃ n, List.Perm cs2 (cs ++ (flattenArgs args).take n)) ∧
    (∀ (cs ds : List Directory) (e : Err) (cs2 : List Directory),
      Directory.add_children cs (ds.map Arg.dir) = (some e, cs2) →
      ∃ n, cs2 = cs ++ ds.take n) ∧
    (Directory.add_children [leaf "z"] [.dir (leaf "a"), .dir (leaf "z")] =
      (some Err.duplicateName, [leaf "z", leaf "a"]) ∧
      ¬ List.Sorted (fun s t => nameLe s t = true) (childNames [leaf "z", leaf "a"])) :=
  ⟨fun cs args e cs2 h => add_children_fail_perm args cs e cs2 h,
   fun cs ds e cs2 h => add_children_flat_fail ds cs e cs2 h,
   by decide, by decide⟩

/-- Witness for C10 at a concrete input: the failed call
`add_children([z]; a, z)` leaves the children equal to the old array with
the inserted prefix `[a]` appended, unsorted. -/
theorem c10_failed_add_children_witness :
    ∃ n, ([leaf "z", leaf "a"] : List Directory) =
      [leaf "z"] ++ [leaf "a", leaf "z"].take n :=
  c10_failed_add_children.2.1 [leaf "z"] [leaf "a", leaf "z"]
    Err.duplicateName [leaf "z", leaf "a"] (by decide)

/-! ## Sorted-children invariant and the import/export round trip -/

/-- The children of the tree in the spec's rendering example: root `A` with
children `B`, `C` in stored (sorted) order, `B` having one child `D`. -/
def exD : Directory := .mk "D" none "bx-folder" [] []

def exB : Directory := .mk "B" none "bx-folder" [] [exD]

def exC : Directory := .mk "C" none "bx-folder" [] []

def exA : Directory := .mk "A" none "bx-folder" [] [exB, exC]

/-- One sibling list is strictly ascending by `name` (sorted with no
duplicate names). -/
def strictSortedB : List Directory → Bool
  | [] => true
  | [_] => true
  | a :: b :: l => nameLt a.name b.name && strictSortedB (b :: l)

mutual

/-- Every node of the tree has a strictly-ascending children array: the
state every tree reaches when it is built through `add_children` alone
(rename can break it, see the spec's design notes). -/
def Directory.sortedInv : Directory → Bool
  | .mk _ _ _ _ cs => strictSortedB cs && Directory.sortedInvList cs

def Directory.sortedInvList : List Directory → Bool
  | [] => true
  | c :: cs => Directory.sortedInv c && Directory.sortedInvList cs

end

instance : IsTrans Directory (fun a b => nameLt a.name b.name = true) :=
  ⟨fun _ _ _ => nameLt_trans⟩

theorem strictSortedB_chain : ∀ {l : List Directory}, strictSortedB l = true →
    List.Chain' (fun a b : Directory => nameLt a.name b.name = true) l
  | [], _ => List.chain'_nil
  | [a], _ => List.chain'_singleton a
  | a :: b :: l, h => by
    simp only [strictSortedB, Bool.and_eq_true] at h
    exact List.chain'_cons.mpr ⟨h.1, strictSortedB_chain h.2⟩

theorem strictSortedB_pairwise {l : List Directory} (h : strictSortedB l = true) :
    List.Pairwise (fun a b : Directory => nameLt a.name b.name = true) l :=
  List.chain'_iff_pairwise.mp (strictSortedB_chain h)

theorem strictSortedB_sorted {l : List Directory} (h : strictSortedB l = true) :
    List.Sorted childLe l :=
  (strictSortedB_pairwise h).imp fun hab => nameLe_of_lt hab

theorem strictSortedB_nodup {l : List Directory} (h : strictSortedB l = true) :
    (childNames l).Nodup := by
  have hp := (strictSortedB_pairwise h).imp fun hab => nameLt_ne hab
  simpa [childNames, List.Nodup, List.pairwise_map] using hp

theorem sortChildren_eq_self {l : List Directory} (h : List.Sorted childLe l) :
    sortChildren l = l :=
  List.Sorted.insertionSort_eq h

theorem add_children_flat_ok : ∀ (ds cs : List Directory),
    (childNames (cs ++ ds)).Nodup →
    Directory.add_children cs (ds.map Arg.dir) = (none, sortChildren (cs ++ ds))
  | [], cs, _ => by simp [Directory.add_children]
  | d :: ds, cs, h => by
    rw [List.map_cons, Directory.add_children, Directory.addOneArg]
    have hd : d.name ∉ childNames cs := by
      rw [childNames_append] at h
      intro hmem
      exact (List.nodup_append.mp h).2.2 hmem (by simp [childNames])
    rw [_add_child_not_mem hd]
    have h2 : (childNames ((cs ++ [d]) ++ ds)).Nodup := by
      rw [List.append_assoc]
      exact h
    show Directory.add_children (cs ++ [d]) (ds.map Arg.dir) =
      (none, sortChildren (cs ++ d :: ds))
    rw [add_children_flat_ok ds (cs ++ [d]) h2, List.append_assoc]
    rfl

/-- The single-list-argument call `directory.add_children(children)` made
by `_build_from_object`: with pairwise-distinct names it succeeds and the
resulting array is the sorted insertion of all of `ds`. -/
theorem add_children_single_list (ds : List Directory)
    (hnd : (childNames ds).Nodup) :
    Directory.add_children [] [Arg.lst (ds.map Arg.dir)] = (none, sortChildren ds) := by
  have hflat := add_children_flat_ok ds [] (by simpa using hnd)
  rw [Directory.add_children, Directory.addOneArg]
  simp only [List.nil_append] at hflat
  rw [hflat]
  show Directory.add_children (sortChildren ds) [] = (none, sortChildren ds)
  rw [Directory.add_children, sortChildren_eq_self (sortChildren_sorted ds)]

mutual

theorem build_objectify_aux : ∀ (d : Directory), Directory.sortedInv d = true →
    Directory._build_from_object (Directory._objectify d) = .ok d
  | .mk n de ic tg cs, h => by
    simp only [Directory.sortedInv, Bool.and_eq_true] at h
    have hkey : Directory._build_from_object (Directory._objectify (.mk n de ic tg cs)) =
        match Directory.buildList (Directory.objectifyList cs) with
        | .error e => .error e
        | .ok ds =>
          match Directory.add_children [] [Arg.lst (ds.map Arg.dir)] with
          | (some e, _) => .error e
          | (none, cs2) => .ok (.mk n de ic tg cs2) := rfl
    have hadd := add_children_single_list cs (strictSortedB_nodup h.1)
    rw [sortChildren_eq_self (strictSortedB_sorted h.1)] at hadd
    have hstep : Directory._build_from_object (Directory._objectify (.mk n de ic tg cs)) =
        match Directory.add_children [] [Arg.lst (cs.map Arg.dir)] with
        | (some e, _) => .error e
        | (none, cs2) => .ok (.mk n de ic tg cs2) := by
      rw [hkey, build_objectify_list_aux cs h.2]
    rw [hstep, hadd]

theorem build_objectify_list_aux : ∀ (cs : List Directory),
    Directory.sortedInvList cs = true →
    Directory.buildList (Directory.objectifyList cs) = .ok cs
  | [], _ => rfl
  | c :: cs, h => by
    simp only [Directory.sortedInvList, Bool.and_eq_true] at h
    rw [Directory.objectifyList, Directory.buildList, build_objectify_aux c h.1,
      build_objectify_list_aux cs h.2]

end

/-- Claim C2 counterexample: a tree whose root stores its two
distinctly-named children in the unsorted order `[b, a]` (reachable, e.g.
through a rename, since rename does not re-sort) serialises and re-imports
to a DIFFERENT tree: `_build_from_object` attaches children through
`add_children`, which re-sorts them to `[a, b]`, so child order is not
preserved and the trees are not isomorphic even though no sibling names
collide. -/
theorem c2_roundtrip_counterexample :
    (childNames (Directory.mk "r" none "bx-folder" [] [leaf "b", leaf "a"]).children).Nodup ∧
    Directory._build_from_object
      (Directory._objectify (.mk "r" none "bx-folder" [] [leaf "b", leaf "a"])) =
      .ok (.mk "r" none "bx-folder" [] [leaf "a", leaf "b"]) ∧
    Directory.mk "r" none "bx-folder" [] [leaf "a", leaf "b"] ≠
      .mk "r" none "bx-folder" [] [leaf "b", leaf "a"] :=
  ⟨by decide, by decide, by decide⟩

/-- Claim C2 (amended): for every tree in which EVERY node's children array
is strictly ascending by name (sorted with no duplicate sibling names —
the state `add_children` maintains; plain absence of name collisions is
not enough, see the counterexample), serialising with `_objectify` and
rebuilding with `_build_from_object` reproduces the tree exactly: same
names, descriptions, icons, tags and child order at every node. -/
theorem c2_roundtrip (d : Directory) (h : Directory.sortedInv d = true) :
    Directory._build_from_object (Directory._objectify d) = .ok d :=
  build_objectify_aux d h

/-- Witness for C2 at a concrete input: the example tree (root `A`,
children `B`, `C`, grandchild `D`) round-trips to itself. -/
theorem c2_roundtrip_witness :
    Directory._build_from_object (Directory._objectify exA) = .ok exA :=
  c2_roundtrip exA (by decide)

/-! ## The structured-record importer on general records (claim C6) -/

/-- The `name` a record contributes (`""` when the key is absent; only used
on well-formed records, where the key is present). -/
def recName (r : Rec) : String := r.name.getD ""

mutual

/-- A record the importer accepts, recursively: `name` present, no unknown
keys, and the children (if any) well formed with pairwise-distinct
names. -/
def Rec.wellFormed : Rec → Bool
  | .mk nm _ _ _ ch unk => nm.isSome && unk.isEmpty && Rec.wellFormedOpt ch

def Rec.wellFormedOpt : Option (List Rec) → Bool
  | none => true
  | some l => decide ((l.map recName).Nodup) && Rec.wellFormedList l

def Rec.wellFormedList : List Rec → Bool
  | [] => true
  | r :: rs => Rec.wellFormed r && Rec.wellFormedList rs

end

mutual

theorem build_wf_aux : ∀ (r : Rec), Rec.wellFormed r = true →
    ∃ d, Directory._build_from_object r = .ok d ∧ d.name = recName r
  | .mk nm de ic tg ch unk, h => by
    simp only [Rec.wellFormed, Bool.and_eq_true] at h
    obtain ⟨⟨h1, h2⟩, hch⟩ := h
    obtain ⟨n, rfl⟩ := Option.isSome_iff_exists.mp h1
    have hunk : unk = [] := by
      cases unk with
      | nil => rfl
      | cons u us => simp [List.isEmpty] at h2
    subst hunk
    obtain ⟨ds, hds, hnd⟩ := build_wf_opt_aux ch hch
    have hkey : Directory._build_from_object (.mk (some n) de ic tg ch []) =
        match Directory.buildOptList ch with
        | .error e => .error e
        | .ok ds2 =>
          match Directory.add_children [] [Arg.lst (ds2.map Arg.dir)] with
          | (some e, _) => .error e
          | (none, cs2) => .ok (.mk n de (ic.getD "bx-folder") (tg.getD []) cs2) := rfl
    have hstep : Directory._build_from_object (.mk (some n) de ic tg ch []) =
        match Directory.add_children [] [Arg.lst (ds.map Arg.dir)] with
        | (some e, _) => .error e
        | (none, cs2) => .ok (.mk n de (ic.getD "bx-folder") (tg.getD []) cs2) := by
      rw [hkey, hds]
    rw [hstep, add_children_single_list ds hnd]
    exact ⟨_, rfl, rfl⟩

theorem build_wf_opt_aux : ∀ (ch : Option (List Rec)), Rec.wellFormedOpt ch = true →
    ∃ ds, Directory.buildOptList ch = .ok ds ∧ (childNames ds).Nodup
  | none, _ => ⟨[], rfl, List.nodup_nil⟩
  | some l, h => by
    simp only [Rec.wellFormedOpt, Bool.and_eq_true, decide_eq_true_eq] at h
    obtain ⟨ds, hds, hnames⟩ := build_wf_list_aux l h.2
    exact ⟨ds, hds, by rw [hnames]; exact h.1⟩

theorem build_wf_list_aux : ∀ (l : List Rec), Rec.wellFormedList l = true →
    ∃ ds, Directory.buildList l = .ok ds ∧ childNames ds = l.map recName
  | [], _ => ⟨[], rfl, rfl⟩
  | r :: rs, h => by
    simp only [Rec.wellFormedList, Bool.and_eq_true] at h
    obtain ⟨d, hd, hname⟩ := build_wf_aux r h.1
    obtain ⟨ds, hds, hnames⟩ := build_wf_list_aux rs h.2
    refine ⟨d :: ds, ?_, ?_⟩
    · rw [Directory.buildList, hd, hds]
    · simp [childNames] at hnames ⊢
      exact ⟨hname, hnames⟩

end

/-- Claim C6 counterexample: a mapping with `name` present and one extra,
unknown key does NOT import with defaults — `Directory(**obj)` raises
`TypeError` for the unexpected keyword, so the import fails, refuting
"every unknown key takes the Node-model default, and the import
succeeds". -/
theorem c6_counterexample :
    Directory._build_from_object (.mk (some "a") none none none none ["color"]) =
      .error Err.typeError := rfl

/-- Claim C6 (amended): the structured-record importer fails with
`TypeError` (the spec's `MalformedRecordError`) when `name` is absent, and
ALSO fails — rather than applying defaults — when any unknown key is
present; every missing optional key does take the Node-model default
(`description=None`, `icon="bx-folder"`, `tags=[]`, `children=[]`); and
the import succeeds on every record that, recursively, has `name`, no
unknown keys and distinctly-named children. -/
theorem c6_import_record :
    (∀ (de ic : Option String) (tg : Option (List String)) (ch : Option (List Rec))
        (unk : List String),
      Directory._build_from_object (.mk none de ic tg ch unk) = .error Err.typeError) ∧
    (∀ (n : String) (de ic : Option String) (tg : Option (List String))
        (ch : Option (List Rec)) (unk : List String), unk ≠ [] →
      Directory._build_from_object (.mk (some n) de ic tg ch unk) = .error Err.typeError) ∧
    (∀ n : String,
      Directory._build_from_object (.mk (some n) none none none none []) =
        .ok (.mk n none "bx-folder" [] [])) ∧
    (∀ r : Rec, Rec.wellFormed r = true → ∃ d, Directory._build_from_object r = .ok d) := by
  refine ⟨fun de ic tg ch unk => rfl, ?_, fun n => rfl,
    fun r h => (build_wf_aux r h).elim fun d hd => ⟨d, hd.1⟩⟩
  intro n de ic tg ch unk hne
  cases unk with
  | nil => exact absurd rfl hne
  | cons u us => rfl

/-- Witness for C6 at a concrete input: a record with only `name` and a
well-formed child imports successfully. -/
theorem c6_import_record_witness :
    ∃ d, Directory._build_from_object
      (.mk (some "a") none none (some ["t"])
        (some [.mk (some "b") none none none none []]) []) = .ok d :=
  c6_import_record.2.2.2 _ (by decide)

/-- Claim C5 counterexample: the constructor performs no name validation
(src/dirtree.py lines 48-57 contain no check and no `raise`), so
constructing a node with the EMPTY name does not fail with any
`InvalidNameError`: it returns an ordinary leaf with empty name, default
fields, no parent and no children — refuting "Constructing a Node with an
empty name fails with InvalidNameError". -/
theorem c5_counterexample :
    directoryInit "" none "bx-folder" none = Directory.mk "" none "bx-folder" [] [] := rfl

/-- Claim C5 (amended): construction never validates the name and never
fails: for EVERY name, including the empty string, `Directory(name, ...)`
yields a leaf node carrying the given fields (with `tags=None` coalesced to
`[]`), no parent (the constructor sets `_parent = None`) and no children. -/
theorem c5_init_no_validation (name : String) (description : Option String)
    (icon : String) (tags : Option (List String)) :
    (directoryInit name description icon tags).name = name ∧
    (directoryInit name description icon tags).description = description ∧
    (directoryInit name description icon tags).icon = icon ∧
    (directoryInit name description icon tags).tags = tags.getD [] ∧
    (directoryInit name description icon tags).children = [] :=
  ⟨rfl, rfl, rfl, rfl, rfl⟩

/-- Claim C8: with `existing_file_method = "error"`, exporting onto an
existing file always raises `FileExistsError` (the spec's
`FileConflictError`) before anything is written — the target keeps its
contents — and exporting to a fresh file writes exactly
`{root_name: self._objectify()}` as the whole document (`export_yaml`
lines 524-555 and `export_json` lines 557-588 share this structure). -/
theorem c8_export_error_policy :
    (∀ (d : Directory) (data : List (String × Rec)) (root_name : String),
      Directory.export_document d (some data) root_name .error = .error Err.fileExists) ∧
    (∀ (d : Directory) (root_name : String),
      Directory.export_document d none root_name .error =
        .ok [(root_name, d._objectify)]) :=
  ⟨fun _ _ _ => rfl, fun _ _ => rfl⟩

/-! ## The line-by-line rendering specification (claim C4)

`specLines` is the specification-side description of `tree`: each node is
one line made of one three-character continuation column per ancestor
strictly between the node and the root (`"   "` when that ancestor was a
last child, `"│  "` otherwise, in root-to-node order), then the corner
glyph (`"└─ "` for a last child, `"├─ "` otherwise, nothing for the root),
then the `📁 ` label and the name; children follow while the depth budget
exceeds one, with the flag list extended by the node's own flag. -/

/-- One continuation column, from the is-last flag of one ancestor. -/
def contColumn (b : Bool) : String := if b then "   " else "│  "

/-- The corner glyph of a node: `none` for the root, `some b` with `b` the
is-last-child flag otherwise. -/
def cornerOf : Option Bool → String
  | none => ""
  | some true => "└─ "
  | some false => "├─ "

/-- The continuation columns of the ancestors strictly between a node and
the root, root first. -/
def colsOf : List Bool → String
  | [] => ""
  | b :: bs => contColumn b ++ colsOf bs

/-- The ancestor flags a node passes to its children: the root's children
start afresh, any other node appends its own is-last flag. -/
def childFlags (bs : List Bool) : Option Bool → List Bool
  | none => []
  | some b => bs ++ [b]

mutual

/-- Specification-side renderer: the list of rendered lines of one node
(`bs` the ancestor flags, `pos` the node's own corner flag). -/
def specLines : List Bool → Option Bool → Option Nat → Directory → List String
  | bs, pos, levels, .mk n _ _ _ cs =>
    (colsOf bs ++ cornerOf pos ++ "📁 " ++ n) ::
      (if levelsGtOne levels then
        specLinesList (childFlags bs pos) (levelsPred levels) cs
      else [])

/-- Specification-side renderer for a sibling list (the last sibling gets
flag `true`). -/
def specLinesList : List Bool → Option Nat → List Directory → List String
  | _, _, [] => []
  | bs, levels, c :: rest =>
    specLines bs (some rest.isEmpty) levels c ++ specLinesList bs levels rest

end

/-- The fold `lines.foldr (fun l acc => "\n" ++ l ++ acc) ""`: the continuation
lines of a rendering, each preceded by a newline. -/
def prepLines : List String → String
  | [] => ""
  | l :: ls => "\n" ++ l ++ prepLines ls

theorem joinSep_nl_cons (x : String) (xs : List String) :
    joinSep "\n" (x :: xs) = x ++ prepLines xs := by
  induction xs generalizing x with
  | nil => exact (String.append_empty x).symm
  | cons y ys ih =>
    rw [joinSep, ih y, prepLines, ← String.append_assoc, ← String.append_assoc,
      String.append_assoc x "\n" y]

theorem prepLines_append (A B : List String) :
    prepLines (A ++ B) = prepLines A ++ prepLines B := by
  induction A with
  | nil => exact (String.empty_append _).symm
  | cons l ls ih =>
    rw [List.cons_append, prepLines, prepLines, ih, String.append_assoc,
      String.append_assoc, ← String.append_assoc]

theorem colsOf_append (bs : List Bool) (b : Bool) :
    colsOf (bs ++ [b]) = colsOf bs ++ contColumn b := by
  induction bs with
  | nil => simp [colsOf]
  | cons x xs ih =>
    rw [List.cons_append, colsOf, colsOf, ih, String.append_assoc]

mutual

theorem treeNode_spec : ∀ (d : Directory) (bs : List Bool) (pos : Option Bool)
    (levels : Option Nat),
    Directory.treeNode (colsOf bs) pos.isNone (pos.getD true) levels d =
      joinSep "\n" (specLines bs pos levels d)
  | .mk n de ic tg cs, bs, pos, levels => by
    have hspec : specLines bs pos levels (.mk n de ic tg cs) =
        (colsOf bs ++ cornerOf pos ++ "📁 " ++ n) ::
          (if levelsGtOne levels then
            specLinesList (childFlags bs pos) (levelsPred levels) cs
          else []) := rfl
    rw [Directory.treeNode, hspec, joinSep_nl_cons]
    have hc : (if pos.isNone then "" else if pos.getD true then "└─ " else "├─ ") =
        cornerOf pos := by
      cases pos with
      | none => rfl
      | some b => cases b <;> rfl
    have hcols : (if pos.isNone then ""
        else colsOf bs ++ (if pos.getD true then "   " else "│  ")) =
        colsOf (childFlags bs pos) := by
      cases pos with
      | none => rfl
      | some b =>
        rw [childFlags, colsOf_append]
        cases b <;> rfl
    rw [hc, hcols]
    by_cases hlt : levelsGtOne levels = true
    · rw [if_pos hlt, if_pos hlt, treeList_spec cs (childFlags bs pos) (levelsPred levels)]
    · rw [if_neg hlt, if_neg hlt]
      rfl

theorem treeList_spec : ∀ (cs : List Directory) (bs : List Bool) (levels : Option Nat),
    Directory.treeList (colsOf bs) levels cs = prepLines (specLinesList bs levels cs)
  | [], bs, levels => rfl
  | c :: rest, bs, levels => by
    rw [Directory.treeList, specLinesList, prepLines_append]
    have h := treeNode_spec c bs (some rest.isEmpty) levels
    simp only [Option.isNone_some, Option.getD_some] at h
    rw [h, treeList_spec rest bs levels]
    have hsp : ∃ x xs, specLines bs (some rest.isEmpty) levels c = x :: xs := by
      cases c with
      | mk n2 de2 ic2 tg2 cs2 => exact ⟨_, _, rfl⟩
    obtain ⟨x, xs, hx⟩ := hsp
    rw [hx, joinSep_nl_cons, prepLines, ← String.append_assoc]

end

/-- Claim C4: rendering the tree with root `A`, children `B`, `C` (stored
in that order) and grandchild `D` under `B`, with unbounded depth, yields
exactly the four expected lines joined by single newlines with no trailing
newline; and in general the renderer agrees line by line with the
specification `specLines`: every non-root node's line is one
three-character continuation column per ancestor strictly between it and
the root followed by its corner glyph and label, children extending the
ancestor-flag list by the node's own flag. -/
theorem c4_tree_render :
    Directory.tree exA = "📁 A\n├─ 📁 B\n│  └─ 📁 D\n└─ 📁 C" ∧
    ∀ (bs : List Bool) (isLast : Bool) (levels : Option Nat) (d : Directory),
      Directory.treeNode (colsOf bs) false isLast levels d =
        joinSep "\n" (specLines bs (some isLast) levels d) := by
  constructor
  · decide
  · intro bs isLast levels d
    have h := treeNode_spec d bs (some isLast) levels
    simpa using h

/-! ## Dictionary-merge and substitution facts (claim C7) -/

theorem lookup_append (k : String) (A B : List (String × Option String)) :
    (A ++ B).lookup k =
      match A.lookup k with
      | some v => some v
      | none => B.lookup k := by
  induction A with
  | nil => rfl
  | cons kv A ih =>
    obtain ⟨k1, v1⟩ := kv
    cases hk : k == k1 with
    | true => simp [List.lookup, hk]
    | false => simp [List.lookup, hk, ih]

theorem lookup_overrideBase (k : String) (base extra : List (String × Option String)) :
    (base.map fun kv =>
      match extra.lookup kv.1 with
      | some v2 => (kv.1, v2)
      | none => kv).lookup k =
      match base.lookup k with
      | some v => some ((extra.lookup k).getD v)
      | none => none := by
  induction base with
  | nil => rfl
  | cons kv B ih =>
    obtain ⟨k1, v1⟩ := kv
    cases hk : k == k1 with
    | true =>
      have hkeq : k = k1 := eq_of_beq hk
      subst hkeq
      cases hex : extra.lookup k with
      | some v2 => simp [List.lookup, hex, hk]
      | none => simp [List.lookup, hex, hk]
    | false =>
      cases hex : extra.lookup k1 with
      | some v2 => simp [List.lookup, hex, hk, ih]
      | none => simp [List.lookup, hex, hk, ih]

theorem contains_eq_false_of_lookup_none {k : String} :
    ∀ {m : List (String × Option String)}, m.lookup k = none →
      (dictKeys m).contains k = false
  | [], _ => rfl
  | (k1, v1) :: E, h => by
    cases hk : k == k1 with
    | true => simp [List.lookup, hk] at h
    | false =>
      simp only [List.lookup, hk] at h
      have ih := contains_eq_false_of_lookup_none (m := E) h
      show ((k1 :: dictKeys E).contains k) = false
      rw [List.contains_cons, hk, ih]
      rfl

theorem lookup_filter_not_contains (k : String) (base extra : List (String × Option String))
    (h : (dictKeys base).contains k = false) :
    (extra.filter fun kv => !(dictKeys base).contains kv.1).lookup k = extra.lookup k := by
  induction extra with
  | nil => rfl
  | cons kv E ih =>
    obtain ⟨k1, v1⟩ := kv
    cases hk : k == k1 with
    | true =>
      have hkeq : k = k1 := eq_of_beq hk
      subst hkeq
      rw [List.filter_cons_of_pos (by show (!(dictKeys base).contains k) = true; rw [h]; rfl)]
      simp only [List.lookup, hk]
    | false =>
      cases hc : (dictKeys base).contains k1 with
      | true =>
        rw [List.filter_cons_of_neg
          (by show ¬ (!(dictKeys base).contains k1) = true; rw [hc]; simp)]
        rw [ih]
        simp only [List.lookup, hk]
      | false =>
        rw [List.filter_cons_of_pos (by show (!(dictKeys base).contains k1) = true; rw [hc]; rfl)]
        simp only [List.lookup, hk]
        exact ih

/-- Python `base |= extra` value-level semantics: for every key, the merged
dictionary answers with `extra`'s value when `extra` has the key, and with
`base`'s value otherwise. -/
theorem dictUpdate_lookup (base extra : List (String × Option String)) (k : String) :
    (dictUpdate base extra).lookup k =
      match base.lookup k with
      | some v => some ((extra.lookup k).getD v)
      | none => extra.lookup k := by
  rw [dictUpdate, lookup_append, lookup_overrideBase]
  cases hb : base.lookup k with
  | some v => rfl
  | none =>
    exact lookup_filter_not_contains k base extra (contains_eq_false_of_lookup_none hb)

/-- A node whose `name` is itself another recognised placeholder, to
exhibit re-substitution by the sequential `replace_all`. -/
def cexRD : Directory := .mk "[DIRECTORY_ICON]" none "X" [] []

/-- Claim C7 counterexample: README substitution is NOT a single pass.  On
the template `"[DIRECTORY_NAME]"` for a node named `"[DIRECTORY_ICON]"`
with icon `"X"` (and empty extra placeholders), the name substitution
first produces the text `[DIRECTORY_ICON]`, and the later icon
substitution then rewrites that freshly introduced text, so the produced
README is `"X"`; a true single pass (the specification-side
`specOnePassReplace`) leaves `"[DIRECTORY_ICON]"`.  This refutes "text
introduced by one substitution value is never itself re-substituted by
another placeholder's replacement". -/
theorem c7_counterexample :
    Directory._export_readme "[DIRECTORY_NAME]" [cexRD] cexRD "d" "t" "dt" [] = "X" ∧
    specOnePassReplace "[DIRECTORY_NAME]"
      (dictUpdate (readmeReplacements [cexRD] cexRD "d" "t" "dt") []) = "[DIRECTORY_ICON]" ∧
    ("X" : String) ≠ "[DIRECTORY_ICON]" :=
  ⟨by decide, by decide, by decide⟩

/-- Claim C7 (amended): README substitution applies one exact substring
replacement per mapping entry, SEQUENTIALLY in mapping order — each
replacement acting on the output of the previous one, so text introduced by
an earlier substitution can be re-substituted by a later placeholder (see
the counterexample) — over the dictionary `replacements |= custom`, whose
value at any key is the caller's value when the caller supplies that key
(built-in keys keep their position, their value overridden in place;
genuinely new keys are appended after the built-ins) and the built-in value
otherwise; `None` values substitute as the empty string.  The last conjunct
shows a caller override of `[DIRECTORY_NAME]` taking effect. -/
theorem c7_readme_substitution :
    (∀ (s : String) (m : List (String × Option String)),
      replace_all s m = m.foldl (fun acc kv => pyReplace acc kv.1 (kv.2.getD "")) s) ∧
    (∀ (base extra : List (String × Option String)) (k : String),
      (dictUpdate base extra).lookup k =
        match base.lookup k with
        | some v => some ((extra.lookup k).getD v)
        | none => extra.lookup k) ∧
    Directory._export_readme "[DIRECTORY_NAME]" [cexRD] cexRD "d" "t" "dt"
      [("[DIRECTORY_NAME]", some "custom")] = "custom" :=
  ⟨fun _ _ => rfl, dictUpdate_lookup, by decide⟩

/-- Claim C9: the `name` setter skips the whole uniqueness scan when
`self.parent is None`, so renaming a root performs no check at all and
unconditionally assigns the new name — for every string, including the
empty string or any name used elsewhere in the tree — leaving all other
fields and the children untouched. -/
theorem c9_root_rename (d : Directory) (v : String) :
    Directory.setName none d v = .ok (d.withName v) ∧
    (d.withName v).name = v ∧
    (d.withName v).description = d.description ∧
    (d.withName v).icon = d.icon ∧
    (d.withName v).tags = d.tags ∧
    (d.withName v).children = d.children := by
  cases d
  exact ⟨rfl, rfl, rfl, rfl, rfl, rfl⟩

end DirTree
